import Mathlib

set_option autoImplicit false

/-!
Verification development for the nursing-chatbot repository.

The definitions below are a shallow embedding of the JavaScript source:

* the knowledge service (keyword index resolution `findMatchingEntryId`,
  retrieval `getResponse`, department listings `getDepartmentEntries`,
  title/description extraction `extractTitle` / `extractDescription`);
* the dialog service (per-user bounded conversation history);
* the response generator (`generateGeneralResponse`).

JavaScript strings are modelled through `List Char`; `toLowerCase` is
modelled by ASCII lowering (all keywords and queries in the repository are
ASCII or Chinese, where both agree), `trim`, `includes`, `startsWith`,
`replace` (first occurrence) and `split` are given their ECMAScript
semantics on character lists.  The asynchronous KV storage adapter is
modelled by an explicit `KVStore` record whose operations live in
`Except Unit` (an `error` value models a thrown storage or JSON-parse
exception); every `try`/`catch` of the source is translated into an
explicit handler (`caught` / `caughtList`).
-/

/-- ECMAScript whitespace class `\s` (WhiteSpace plus LineTerminator). -/
def jsWhitespace (c : Char) : Bool :=
  c = ' ' || c = '\t' || c = '\n' || c = Char.ofNat 0x0b || c = Char.ofNat 0x0c ||
  c = '\r' || c = Char.ofNat 0xa0 || c = Char.ofNat 0x1680 ||
  (0x2000 ≤ c.toNat && c.toNat ≤ 0x200a) ||
  c = Char.ofNat 0x2028 || c = Char.ofNat 0x2029 || c = Char.ofNat 0x202f ||
  c = Char.ofNat 0x205f || c = Char.ofNat 0x3000 || c = Char.ofNat 0xfeff

/-- ECMAScript line terminators (the characters `^`, `$` and `.` care about). -/
def isLineTerm (c : Char) : Bool :=
  c = '\n' || c = '\r' || c = Char.ofNat 0x2028 || c = Char.ofNat 0x2029

/-- ECMAScript `String.prototype.trim` on character lists. -/
def jsTrimChars (cs : List Char) : List Char :=
  ((cs.dropWhile jsWhitespace).reverse.dropWhile jsWhitespace).reverse

/-- ECMAScript `String.prototype.trim`. -/
def jsTrim (s : String) : String :=
  String.mk (jsTrimChars s.toList)

/-- ECMAScript `String.prototype.toLowerCase` (ASCII fragment). -/
def jsToLower (s : String) : String :=
  String.mk (s.toList.map Char.toLower)

/-- ECMAScript `String.prototype.startsWith`. -/
def jsStartsWith (s pat : String) : Bool :=
  pat.toList.isPrefixOf s.toList

/-- Occurrence of `pat` as a contiguous block of `cs`, scanning left to right. -/
def containsSeq (pat : List Char) : List Char → Bool
  | [] => pat.isEmpty
  | c :: cs => pat.isPrefixOf (c :: cs) || containsSeq pat cs

/-- ECMAScript `String.prototype.includes`: `jsIncludes s sub` is `s.includes(sub)`. -/
def jsIncludes (s sub : String) : Bool :=
  containsSeq sub.toList s.toList

/-- Replace the leftmost occurrence of `pat` by `rep` (ECMAScript
`String.prototype.replace` with a string pattern), on character lists. -/
def replaceOnceList (pat rep : List Char) : List Char → List Char
  | [] => if pat.isEmpty then rep else []
  | c :: cs =>
    if pat.isPrefixOf (c :: cs) then rep ++ (c :: cs).drop pat.length
    else c :: replaceOnceList pat rep cs

/-- ECMAScript `String.prototype.replace` with a plain string pattern. -/
def jsReplaceOnce (s pat rep : String) : String :=
  String.mk (replaceOnceList pat.toList rep.toList s.toList)

/-! ### Knowledge service (second module of `src/line/webhook.js`) -/

/-- A stored knowledge document (wire shape `knowledge:<id>`). -/
structure KnowledgeEntry where
  id : String
  keywords : List String
  text : String
  imageUrl : Option String := none
  videoUrl : Option String := none
  videoPreviewUrl : Option String := none
deriving DecidableEq

/-- Length of the leading `\s+` run, used by the heading regex. -/
def wsRunLen (cs : List Char) : Nat :=
  (cs.takeWhile jsWhitespace).length

/-- Backtracking of the greedy `\s+` in `/^#\s+(.+)$/`: try to consume `k`
whitespace characters (largest first); the capture `(.+)$` then takes the
non-empty run of non-line-terminator characters up to the end of the line. -/
def tryBack (cs : List Char) : Nat → Option (List Char)
  | 0 => none
  | k + 1 =>
    if ((cs.drop (k + 1)).takeWhile (fun c => !isLineTerm c)).isEmpty then tryBack cs k
    else some ((cs.drop (k + 1)).takeWhile (fun c => !isLineTerm c))

/-- Attempt of `/^#\s+(.+)$/` just after a `#`: `cs` is the text following
the `#`.  Mirrors the regex engine: the greedy `\s+` starts at the maximal
whitespace run and gives characters back until `(.+)$` can match. -/
def matchHeadingAt (cs : List Char) : Option (List Char) :=
  tryBack cs (wsRunLen cs)

/-- Left-to-right scan of `text.match(/^#\s+(.+)$/m)`: `^` (multiline) only
matches at the start of the string or right after a line terminator. -/
def scanHeading : List Char → Bool → Option (List Char)
  | [], _ => none
  | c :: cs, atLineStart =>
    if atLineStart && c == '#' then
      match matchHeadingAt cs with
      | some g => some g
      | none => scanHeading cs (isLineTerm c)
    else scanHeading cs (isLineTerm c)

/-- `extractTitle` of the knowledge service: first multiline match of
`/^#\s+(.+)$/`, trimmed, with the untitled-entry fallback literal. -/
def extractTitle (text : String) : String :=
  match scanHeading text.toList true with
  | some g => String.mk (jsTrimChars g)
  | none => "未命名知識條目"

/-- ECMAScript `text.split('\n\n')` on character lists (leftmost,
non-overlapping occurrences of the two-newline separator). -/
def splitPara : List Char → List (List Char)
  | '\n' :: '\n' :: cs => [] :: splitPara cs
  | c :: cs =>
    match splitPara cs with
    | p :: ps => (c :: p) :: ps
    | [] => [[c]]
  | [] => [[]]

/-- Loop of `extractDescription`: first paragraph that does not start with
`#` and is non-blank, trimmed; the empty list plays the initial `''`. -/
def findDescLoop : List (List Char) → List Char
  | [] => []
  | p :: ps =>
    if !(['#'].isPrefixOf p) && !(jsTrimChars p).isEmpty then jsTrimChars p
    else findDescLoop ps

/-- `extractDescription` of the knowledge service: first non-heading,
non-blank paragraph, truncated after 50 characters with an ellipsis, with
the no-description fallback literal. -/
def extractDescription (text : String) : String :=
  let paragraphs := splitPara text.toList
  let description := findDescLoop paragraphs
  let truncated := if description.length > 50 then description.take 50 ++ "...".toList else description
  if truncated.isEmpty then "無描述" else String.mk truncated

/-- `findMatchingEntryId` of the knowledge service.  The keyword index is
the list of `Object.entries` of the stored mapping, in insertion order.
First pass: exact (lowercased) department match.  Second pass: first
non-department entry whose lowercased keyword occurs inside the normalized
query (the loop's `continue` on department entries is folded into the
`find?` predicate). -/
def findMatchingEntryId (query : String) (keywordIndex : List (String × String)) : Option String :=
  let lowerQuery := jsTrim (jsToLower query)
  match keywordIndex.find? (fun kv => jsToLower kv.1 == lowerQuery && jsStartsWith kv.2 "Department:") with
  | some kv => some kv.2
  | none =>
    match keywordIndex.find? (fun kv => !jsStartsWith kv.2 "Department:" && jsIncludes lowerQuery (jsToLower kv.1)) with
    | some kv => some kv.2
    | none => none

/-- The KV storage adapter, as seen by the knowledge service.  An `error`
of the outer `Except` models a thrown adapter call; the `Option` models a
`null` result (absent key); the inner `Except` models `JSON.parse`
throwing on a malformed payload. -/
structure KVStore where
  configured : Bool
  rawIndex : Except Unit (Option (Except Unit (List (String × String))))
  rawDoc : String → Except Unit (Option (Except Unit KnowledgeEntry))
  rawListKeys : Except Unit (List String)

/-- A `try { ... } catch { return null }` boundary. -/
def caught {α : Type} (x : Except Unit (Option α)) : Option α :=
  match x with
  | .ok r => r
  | .error _ => none

/-- A `try { ... } catch { return [] }` boundary. -/
def caughtList {α : Type} (x : Except Unit (List α)) : List α :=
  match x with
  | .ok r => r
  | .error _ => []

/-- `getKeywordIndex`: fetch and parse the `keyword-index` key, failing
soft to `none` on missing namespace, absent key, storage error or parse
error. -/
def getKeywordIndex (s : KVStore) : Option (List (String × String)) :=
  caught (do
    if !s.configured then
      pure none
    else do
      let indexJson ← s.rawIndex
      match indexJson with
      | none => pure none
      | some parsed => do
        let idx ← parsed
        pure (some idx))

/-- `getKnowledgeById`: fetch and parse `knowledge:<id>`, failing soft. -/
def getKnowledgeById (s : KVStore) (id : String) : Option KnowledgeEntry :=
  caught (do
    if !s.configured then
      pure none
    else do
      let knowledgeJson ← s.rawDoc ("knowledge:" ++ id)
      match knowledgeJson with
      | none => pure none
      | some parsed => do
        let entry ← parsed
        pure (some entry))

/-- `getAllKnowledgeIds`: list the `knowledge:` keys and strip the key
namespace, failing soft to the empty list. -/
def getAllKnowledgeIds (s : KVStore) : List String :=
  caughtList (do
    if !s.configured then
      pure []
    else do
      let keys ← s.rawListKeys
      pure (keys.map (fun name => jsReplaceOnce name "knowledge:" "")))

/-- Summary row of a department listing. -/
structure EntrySummary where
  id : String
  title : String
  description : String
deriving DecidableEq

/-- `getDepartmentEntries`: filter all ids by the `<department>-` id
convention, fetch each document, keep the successfully fetched ones
(`entries.filter(entry => entry !== null)`). -/
def getDepartmentEntries (s : KVStore) (department : String) : List EntrySummary :=
  caughtList (do
    let normalizedDepartment := jsToLower (jsTrim department)
    let allIds := getAllKnowledgeIds s
    let departmentIds := allIds.filter (fun id => jsStartsWith id (normalizedDepartment ++ "-"))
    if departmentIds.length = 0 then
      pure []
    else
      let entries := departmentIds.map (fun id =>
        match getKnowledgeById s id with
        | some entry =>
          some { id := entry.id, title := extractTitle entry.text, description := extractDescription entry.text }
        | none => (none : Option EntrySummary))
      pure ((entries.filter (fun e => e.isSome)).reduceOption))

/-- Result of `getResponse`: either a full knowledge document, or a
department listing (`isDepartmentListing: true` in the source object). -/
inductive RetrievalResult where
  | listing (department : String) (entries : List EntrySummary)
  | document (entry : KnowledgeEntry)
deriving DecidableEq

/-- The `isDepartmentListing` tag of the source result object. -/
def RetrievalResult.isDepartmentListing : RetrievalResult → Bool
  | .listing _ _ => true
  | .document _ => false

/-- Body of `getResponse` before its outer `try`/`catch`; `error` would
mean an exception propagating to the caller.  The `knowledgeId = ""` test
mirrors the falsiness check `if (!knowledgeId)`. -/
def getResponseE (s : KVStore) (query : String) : Except Unit (Option RetrievalResult) := do
  match getKeywordIndex s with
  | none => pure none
  | some keywordIndex =>
    match findMatchingEntryId query keywordIndex with
    | none => pure none
    | some knowledgeId =>
      if knowledgeId = "" then
        pure none
      else if jsStartsWith knowledgeId "Department:" then
        let department := jsReplaceOnce knowledgeId "Department:" ""
        let departmentEntries := getDepartmentEntries s department
        if departmentEntries.length > 0 then
          pure (some (.listing department departmentEntries))
        else
          pure (some (.listing department []))
      else
        match getKnowledgeById s knowledgeId with
        | some knowledgeEntry => pure (some (.document knowledgeEntry))
        | none => pure none

/-- `getResponse` of the knowledge service, with its outer catch. -/
def getResponse (s : KVStore) (query : String) : Option RetrievalResult :=
  match getResponseE s query with
  | .ok r => r
  | .error _ => none

/-! ### Dialog service (`src/services/dialog.js`, per-user session state) -/

/-- Upper bound `MAX_DIALOG_HISTORY` of the dialog history. -/
def MAX_DIALOG_HISTORY : Nat := 10

/-- One entry of a user's dialog history. -/
structure DialogEntry where
  role : String
  content : String
  timestamp : String
deriving DecidableEq

/-- Per-user conversation context. -/
structure UserContext where
  history : List DialogEntry
  lastInteraction : String
deriving DecidableEq

/-- The module-level `userContexts` map, keyed by user id. -/
abbrev SessionMap : Type := String → Option UserContext

/-- The initial (empty) `userContexts` map. -/
def emptySessions : SessionMap := fun _ => none

/-- `getUserContext`: create the context on first access, then stamp
`lastInteraction` with the current time; the mutation of the shared object
is modelled by writing the updated context back into the map. -/
def getUserContext (sessions : SessionMap) (now : String) (userId : String) :
    UserContext × SessionMap :=
  let base :=
    match sessions userId with
    | some context => context
    | none => { history := [], lastInteraction := now }
  let context := { base with lastInteraction := now }
  (context, fun u => if u = userId then some context else sessions u)

/-- `recordUserMessage`: push one user entry, then drop the oldest entry
(`history.shift()`) when the bound is exceeded. -/
def recordUserMessage (sessions : SessionMap) (now : String) (userId message : String) :
    SessionMap :=
  let ctxAnd := getUserContext sessions now userId
  let context := ctxAnd.1
  let sessions1 := ctxAnd.2
  let history := context.history ++ [{ role := "user", content := message, timestamp := now }]
  let history := if history.length > MAX_DIALOG_HISTORY then history.drop 1 else history
  fun u => if u = userId then some { context with history := history } else sessions1 u

/-- `recordUserImage`: synthetic placeholder entry for an image. -/
def recordUserImage (sessions : SessionMap) (now : String) (userId imageId : String) :
    SessionMap :=
  let ctxAnd := getUserContext sessions now userId
  let context := ctxAnd.1
  let sessions1 := ctxAnd.2
  let history := context.history ++
    [{ role := "user", content := "[圖片: " ++ imageId ++ "]", timestamp := now }]
  let history := if history.length > MAX_DIALOG_HISTORY then history.drop 1 else history
  fun u => if u = userId then some { context with history := history } else sessions1 u

/-- `recordUserVideo`: synthetic placeholder entry for a video. -/
def recordUserVideo (sessions : SessionMap) (now : String) (userId videoId : String) :
    SessionMap :=
  let ctxAnd := getUserContext sessions now userId
  let context := ctxAnd.1
  let sessions1 := ctxAnd.2
  let history := context.history ++
    [{ role := "user", content := "[影片: " ++ videoId ++ "]", timestamp := now }]
  let history := if history.length > MAX_DIALOG_HISTORY then history.drop 1 else history
  fun u => if u = userId then some { context with history := history } else sessions1 u

/-- Argument of `recordBotMessage`: a string, or an array/object whose
`JSON.stringify` rendering is carried explicitly. -/
inductive BotMessage where
  | str (s : String)
  | jsonArray (rendered : String)
  | jsonObject (rendered : String)
deriving DecidableEq

/-- The `messageStr` formatting of `recordBotMessage`. -/
def BotMessage.format : BotMessage → String
  | .str s => s
  | .jsonArray rendered => rendered
  | .jsonObject rendered => rendered

/-- `recordBotMessage`: push one bot entry with the formatted message. -/
def recordBotMessage (sessions : SessionMap) (now : String) (userId : String)
    (message : BotMessage) : SessionMap :=
  let ctxAnd := getUserContext sessions now userId
  let context := ctxAnd.1
  let sessions1 := ctxAnd.2
  let history := context.history ++
    [{ role := "bot", content := message.format, timestamp := now }]
  let history := if history.length > MAX_DIALOG_HISTORY then history.drop 1 else history
  fun u => if u = userId then some { context with history := history } else sessions1 u

/-- `getDialogHistory`: return the (live) history of the user's context;
the state component records the side effect of `getUserContext`. -/
def getDialogHistory (sessions : SessionMap) (now : String) (userId : String) :
    List DialogEntry × SessionMap :=
  let ctxAnd := getUserContext sessions now userId
  (ctxAnd.1.history, ctxAnd.2)

/-- `clearUserContext`: `userContexts.delete(userId)`. -/
def clearUserContext (sessions : SessionMap) (userId : String) : SessionMap :=
  fun u => if u = userId then none else sessions u

/-- One append operation of the dialog service. -/
inductive AppendOp where
  | userMsg (message : String)
  | userImage (imageId : String)
  | userVideo (videoId : String)
  | botMsg (message : BotMessage)
deriving DecidableEq

/-- Dispatch of one append operation. -/
def applyAppend (sessions : SessionMap) (now : String) (userId : String) :
    AppendOp → SessionMap
  | .userMsg message => recordUserMessage sessions now userId message
  | .userImage imageId => recordUserImage sessions now userId imageId
  | .userVideo videoId => recordUserVideo sessions now userId videoId
  | .botMsg message => recordBotMessage sessions now userId message

/-- The dialog entry an append operation produces at time `now`. -/
def AppendOp.entry (now : String) : AppendOp → DialogEntry
  | .userMsg message => { role := "user", content := message, timestamp := now }
  | .userImage imageId => { role := "user", content := "[圖片: " ++ imageId ++ "]", timestamp := now }
  | .userVideo videoId => { role := "user", content := "[影片: " ++ videoId ++ "]", timestamp := now }
  | .botMsg message => { role := "bot", content := message.format, timestamp := now }

/-- Run a sequence of append operations, each with its target user and its
wall-clock timestamp (an event is `(userId, now, op)`). -/
def runAppends (sessions : SessionMap) : List (String × String × AppendOp) → SessionMap
  | [] => sessions
  | (userId, now, op) :: events => runAppends (applyAppend sessions now userId op) events

/-! ### Response generator (`src/services/response.js`) -/

/-- The four default fallback bodies. -/
def defaultResponses : List String :=
  ["很抱歉，我目前沒有這方面的資訊。您可以嘗試輸入部門名稱（如「ICU」、「OR」、「ED」等）或特定教學關鍵詞（如「CVVH」）來查找相關知識。",
   "我無法回答這個問題。請嘗試輸入部門代碼（如「ICU」、「OPD」等）查看該部門所有可用的教學內容，或輸入特定關鍵詞查找具體知識。",
   "抱歉，我不太理解您的問題。您可以直接輸入部門名稱（例如「ICU」）來查看該部門的所有教學內容，或輸入具體的教學關鍵詞。",
   "這個問題超出了我的知識範圍。您可以嘗試輸入部門代碼或特定醫療設備的名稱來找到相關教學資訊。"]

/-- The four friendly reply openers. -/
def friendlyPrefixes : List String :=
  ["很高興收到您的問題！", "謝謝您的提問。", "我很樂意幫助您。", "感謝您向我諮詢。"]

/-- The four encouraging reply closers. -/
def encouragingSuffixes : List String :=
  ["如果您有其他問題，請隨時提問。", "希望我的回答對您有所幫助。",
   "如果需要更多資訊，請告訴我。", "您還有其他問題嗎？我很樂意繼續為您服務。"]

/-- The fixed greeting reply. -/
def greetingReply : String :=
  "您好！我是三總護理助手，很高興為您服務。有什麼我可以幫您的嗎？"

/-- The fixed acknowledgement reply. -/
def thanksReply : String :=
  "不客氣！很高興能幫到您。如果有其他問題，隨時告訴我。"

/-- The fixed usage-instructions reply. -/
def helpReply : String :=
  "您可以使用以下方式找到所需資訊：\n\n1. 輸入部門代碼（如「ICU」、「ED」、「OR」、「OPD」、「WARD」）查看該部門的所有教學內容\n\n2. 輸入特定關鍵詞（如「CVVH」、「透析」等）查找具體的教學資訊\n\n3. 也可輸入您想了解的醫療設備或流程名稱"

/-- `handleSpecialKeywords`: ordered literal-substring rules on the
untouched-case query. -/
def handleSpecialKeywords (query : String) : Option String :=
  if jsIncludes query "你好" || jsIncludes query "哈囉" || jsIncludes query "嗨" then
    some greetingReply
  else if jsIncludes query "謝謝" || jsIncludes query "感謝" then
    some thanksReply
  else if jsIncludes query "幫助" || jsIncludes query "help" || jsIncludes query "使用說明" then
    some helpReply
  else
    none

/-- `generateDefaultResponse`: the three `Math.floor(Math.random() * pool.length)`
draws are passed in explicitly as indices into the three pools. -/
def generateDefaultResponse (r1 r2 r3 : Fin 4) : String :=
  let pre := friendlyPrefixes.get (Fin.cast (by decide) r1)
  let response := defaultResponses.get (Fin.cast (by decide) r2)
  let suf := encouragingSuffixes.get (Fin.cast (by decide) r3)
  pre ++ " " ++ response ++ " " ++ suf

/-- `generateGeneralResponse`: special keywords first, then the random
three-part template. -/
def generateGeneralResponse (query : String) (r1 r2 r3 : Fin 4) : String :=
  match handleSpecialKeywords query with
  | some specialResponse => specialResponse
  | none => generateDefaultResponse r1 r2 r3

/-! ### Claim-side definitions

These definitions follow the wording of the specification (not the source)
and are compared with the source-side definitions in the theorems below. -/

/-- The normalized query of the spec: trim and lowercase (the source
lowercases first; the two orders agree since lowering fixes whitespace). -/
def normQuery (query : String) : String :=
  jsTrim (jsToLower query)

/-- Lines of a text, split at every ECMAScript line terminator. -/
def splitLinesJS : List Char → List (List Char)
  | [] => [[]]
  | c :: cs =>
    if isLineTerm c then [] :: splitLinesJS cs
    else
      match splitLinesJS cs with
      | l :: ls => (c :: l) :: ls
      | [] => [[c]]

/-- Spec-side reading of one line "matching a leading `#` heading marker":
a `#`, at least one whitespace character, and non-blank content; the title
contributed by such a line is its content after the marker, trimmed. -/
def headingLineTitle (l : List Char) : Option (List Char) :=
  match l with
  | '#' :: rest =>
    if (rest.takeWhile jsWhitespace).isEmpty then none
    else if (jsTrimChars rest).isEmpty then none
    else some (jsTrimChars rest)
  | _ => none

/-- Spec-side title extraction: content of the first line matching a
leading `#` heading marker, with the untitled-entry fallback literal. -/
def titleSpecOfLines (text : String) : String :=
  match (splitLinesJS text.toList).findSome? headingLineTitle with
  | some t => String.mk t
  | none => "未命名知識條目"

/-- Spec-side description extraction: first blank-line-separated paragraph
that does not start with the heading marker (and is not blank), truncated
to its first 50 characters plus an ellipsis when longer. -/
def descriptionSpec (text : String) : String :=
  match (splitPara text.toList).find? (fun p => !(['#'].isPrefixOf p) && !(jsTrimChars p).isEmpty) with
  | some p =>
    if (jsTrimChars p).length > 50 then String.mk ((jsTrimChars p).take 50 ++ "...".toList)
    else String.mk (jsTrimChars p)
  | none => "無描述"

/-- Raw (untrimmed) capture a line contributes to the heading scan; the
intermediate form the source scan is compared against. -/
def headingLineRaw (l : List Char) : Option (List Char) :=
  match l with
  | '#' :: rest =>
    if (rest.takeWhile jsWhitespace).isEmpty then none
    else if (rest.dropWhile jsWhitespace).isEmpty then none
    else some (rest.dropWhile jsWhitespace)
  | _ => none

/-- Hypothesis under which the multiline heading regex cannot cross a line
break: every line that begins with `#` contains a non-whitespace character
after the `#`. -/
abbrev NoBlankHeading (text : String) : Prop :=
  ∀ l ∈ splitLinesJS text.toList, l.head? = some '#' →
    (l.drop 1).dropWhile jsWhitespace ≠ []

/-- One bounded append step of the dialog history (push, then shift when
the bound is exceeded), as the spec describes the FIFO policy. -/
def capStep (h : List DialogEntry) (e : DialogEntry) : List DialogEntry :=
  if (h ++ [e]).length > MAX_DIALOG_HISTORY then (h ++ [e]).drop 1 else h ++ [e]

/-- Iterated bounded append. -/
def capRun (h : List DialogEntry) : List DialogEntry → List DialogEntry
  | [] => h
  | e :: es => capRun (capStep h e) es

/-- History of an optional context (`[]` for an absent user). -/
def histOf : Option UserContext → List DialogEntry
  | some ctx => ctx.history
  | none => []

/-- The 4 x 4 x 4 possible composed fallback replies. -/
def allFallbackCombos : List String :=
  friendlyPrefixes.flatMap (fun pre =>
    defaultResponses.flatMap (fun body =>
      encouragingSuffixes.map (fun suf => pre ++ " " ++ body ++ " " ++ suf)))

/-! ### Concrete fixtures used by the witness theorems -/

/-- A keyword index with a department entry and a shadowing substring
keyword. -/
def idxW : List (String × String) :=
  [("i", "icu-doc"), ("ICU", "Department:icu"), ("cvvh", "icu-cvvh-setup")]

/-- A concrete stored document. -/
def docW : KnowledgeEntry :=
  { id := "icu-cvvh-setup", keywords := ["cvvh"], text := "# CVVH 設定\n\n這是說明。" }

/-- A healthy store holding `idxW` and `docW`. -/
def storeW : KVStore :=
  { configured := true
    rawIndex := .ok (some (.ok idxW))
    rawDoc := fun key => if key = "knowledge:icu-cvvh-setup" then .ok (some (.ok docW)) else .ok none
    rawListKeys := .ok ["knowledge:icu-cvvh-setup"] }

/-- A store whose adapter throws on every call. -/
def storeErrW : KVStore :=
  { configured := true
    rawIndex := .error ()
    rawDoc := fun _ => .error ()
    rawListKeys := .error () }

/-- `storeW` with an empty key listing (department with zero documents). -/
def storeEmptyW : KVStore :=
  { storeW with rawListKeys := .ok [] }

/-- A session map with one known user. -/
def sessionsW : SessionMap :=
  fun u =>
    if u = "amy" then
      some { history := [{ role := "user", content := "hi", timestamp := "t0" }], lastInteraction := "t0" }
    else none

/-- Fifteen user-message append events for one user. -/
def events15W : List (String × AppendOp) :=
  (List.range 15).map (fun i => (toString i, AppendOp.userMsg (toString i)))

/-! ### Shared lemmas -/

theorem capStep_length_le (h : List DialogEntry) (e : DialogEntry)
    (hle : h.length ≤ MAX_DIALOG_HISTORY) :
    (capStep h e).length ≤ MAX_DIALOG_HISTORY := by
  simp only [capStep, List.length_append, List.length_singleton]
  split
  · simpa [List.length_drop] using hle
  · simp only [List.length_append, List.length_singleton]
    omega

/-! ### Claim theorems -/

/-- C6: for every prior session state, `clearUserContext` followed by
`getDialogHistory` yields a fresh empty history (not an error), and the
cleared identity's context is recreated empty on that access. -/
theorem claim_C6 (sessions : SessionMap) (userId now : String) :
    (getDialogHistory (clearUserContext sessions userId) now userId).1 = [] ∧
    (getDialogHistory (clearUserContext sessions userId) now userId).2 userId =
      some { history := [], lastInteraction := now } := by
  refine ⟨?_, ?_⟩ <;> simp [getDialogHistory, clearUserContext, getUserContext]

/-- C10: `getDialogHistory` leaves the history sequence unchanged, but is
not side-effect free: every call overwrites `lastInteraction` of the
user's context with the current time, and for an unknown user it creates
a fresh empty context as a side effect. -/
theorem claim_C10 (sessions : SessionMap) (now userId : String) :
    (∀ ctx, sessions userId = some ctx →
      (getDialogHistory sessions now userId).1 = ctx.history ∧
      (getDialogHistory sessions now userId).2 userId =
        some { history := ctx.history, lastInteraction := now }) ∧
    (sessions userId = none →
      (getDialogHistory sessions now userId).2 userId =
        some { history := [], lastInteraction := now }) := by
  constructor
  · intro ctx hs
    constructor <;> simp [getDialogHistory, getUserContext, hs]
  · intro hs
    simp [getDialogHistory, getUserContext, hs]

/-- Witness for C10 at a concrete session map. -/
theorem claim_C10_witness :
    (sessionsW "amy" =
        some { history := [{ role := "user", content := "hi", timestamp := "t0" }], lastInteraction := "t0" } ∧
      (getDialogHistory sessionsW "t1" "amy").1 = [{ role := "user", content := "hi", timestamp := "t0" }] ∧
      (getDialogHistory sessionsW "t1" "amy").2 "amy" =
        some { history := [{ role := "user", content := "hi", timestamp := "t0" }], lastInteraction := "t1" }) ∧
    (sessionsW "bob" = none ∧
      (getDialogHistory sessionsW "t1" "bob").2 "bob" = some { history := [], lastInteraction := "t1" }) := by
  refine ⟨⟨by decide, ?_, ?_⟩, ⟨by decide, ?_⟩⟩
  · exact ((claim_C10 sessionsW "t1" "amy").1
      { history := [{ role := "user", content := "hi", timestamp := "t0" }], lastInteraction := "t0" }
      (by decide)).1
  · exact ((claim_C10 sessionsW "t1" "amy").1
      { history := [{ role := "user", content := "hi", timestamp := "t0" }], lastInteraction := "t0" }
      (by decide)).2
  · exact (claim_C10 sessionsW "t1" "bob").2 (by decide)

/-- C8: `recordUserImage` / `recordUserVideo` append exactly one history
entry whose content is the synthetic media placeholder (the source's
Chinese rendering `[圖片: <id>]` / `[影片: <id>]` of the spec's
`[image: <id>]` / `[video: <id>]`), stamp `lastInteraction` with the
current time, and enforce the FIFO length bound. -/
theorem claim_C8 (sessions : SessionMap) (now userId mediaId : String) :
    (∀ ctx, sessions userId = some ctx →
      recordUserImage sessions now userId mediaId userId =
        some { history := capStep ctx.history
                  { role := "user", content := "[圖片: " ++ mediaId ++ "]", timestamp := now },
               lastInteraction := now } ∧
      recordUserVideo sessions now userId mediaId userId =
        some { history := capStep ctx.history
                  { role := "user", content := "[影片: " ++ mediaId ++ "]", timestamp := now },
               lastInteraction := now }) ∧
    (sessions userId = none →
      recordUserImage sessions now userId mediaId userId =
        some { history := [{ role := "user", content := "[圖片: " ++ mediaId ++ "]", timestamp := now }],
               lastInteraction := now } ∧
      recordUserVideo sessions now userId mediaId userId =
        some { history := [{ role := "user", content := "[影片: " ++ mediaId ++ "]", timestamp := now }],
               lastInteraction := now }) ∧
    (∀ (h : List DialogEntry) (e : DialogEntry),
      h.length ≤ MAX_DIALOG_HISTORY → (capStep h e).length ≤ MAX_DIALOG_HISTORY) := by
  refine ⟨?_, ?_, fun h e hle => capStep_length_le h e hle⟩
  · intro ctx hs
    constructor <;> simp [recordUserImage, recordUserVideo, getUserContext, hs, capStep]
  · intro hs
    constructor <;>
      simp [recordUserImage, recordUserVideo, getUserContext, hs, capStep, MAX_DIALOG_HISTORY]

/-- Witness for C8 at a concrete session map. -/
theorem claim_C8_witness :
    (sessionsW "amy" =
        some { history := [{ role := "user", content := "hi", timestamp := "t0" }], lastInteraction := "t0" } ∧
      recordUserImage sessionsW "t1" "amy" "m1" "amy" =
        some { history := capStep [{ role := "user", content := "hi", timestamp := "t0" }]
                  { role := "user", content := "[圖片: m1]", timestamp := "t1" },
               lastInteraction := "t1" }) ∧
    (sessionsW "bob" = none ∧
      recordUserVideo sessionsW "t1" "bob" "v1" "bob" =
        some { history := [{ role := "user", content := "[影片: v1]", timestamp := "t1" }],
               lastInteraction := "t1" }) := by
  refine ⟨⟨by decide, ?_⟩, ⟨by decide, ?_⟩⟩
  · exact ((claim_C8 sessionsW "t1" "amy" "m1").1
      { history := [{ role := "user", content := "hi", timestamp := "t0" }], lastInteraction := "t0" }
      (by decide)).1
  · exact ((claim_C8 sessionsW "t1" "bob" "v1").2.1 (by decide)).2

/-- C9: the fallback composer checks greeting, gratitude and help-request
literal substrings in order (untouched case) and returns the
corresponding fixed reply on the first hit; otherwise the result is
`prefix ++ " " ++ body ++ " " ++ suffix` drawn from three pools of size
four, hence always one of the 64 known combinations. -/
theorem claim_C9 (query : String) (r1 r2 r3 : Fin 4) :
    friendlyPrefixes.length = 4 ∧ defaultResponses.length = 4 ∧ encouragingSuffixes.length = 4 ∧
    ((jsIncludes query "你好" || jsIncludes query "哈囉" || jsIncludes query "嗨") = true →
      generateGeneralResponse query r1 r2 r3 = greetingReply) ∧
    ((jsIncludes query "你好" || jsIncludes query "哈囉" || jsIncludes query "嗨") = false →
      (jsIncludes query "謝謝" || jsIncludes query "感謝") = true →
      generateGeneralResponse query r1 r2 r3 = thanksReply) ∧
    ((jsIncludes query "你好" || jsIncludes query "哈囉" || jsIncludes query "嗨") = false →
      (jsIncludes query "謝謝" || jsIncludes query "感謝") = false →
      (jsIncludes query "幫助" || jsIncludes query "help" || jsIncludes query "使用說明") = true →
      generateGeneralResponse query r1 r2 r3 = helpReply) ∧
    ((jsIncludes query "你好" || jsIncludes query "哈囉" || jsIncludes query "嗨") = false →
      (jsIncludes query "謝謝" || jsIncludes query "感謝") = false →
      (jsIncludes query "幫助" || jsIncludes query "help" || jsIncludes query "使用說明") = false →
      generateGeneralResponse query r1 r2 r3 =
        friendlyPrefixes.get (Fin.cast (by decide) r1) ++ " " ++
          defaultResponses.get (Fin.cast (by decide) r2) ++ " " ++
          encouragingSuffixes.get (Fin.cast (by decide) r3) ∧
      generateGeneralResponse query r1 r2 r3 ∈ allFallbackCombos) := by
  refine ⟨by decide, by decide, by decide, ?_, ?_, ?_, ?_⟩
  · intro h1
    simp [generateGeneralResponse, handleSpecialKeywords, h1]
  · intro h1 h2
    simp [generateGeneralResponse, handleSpecialKeywords, h1, h2]
  · intro h1 h2 h3
    simp [generateGeneralResponse, handleSpecialKeywords, h1, h2, h3]
  · intro h1 h2 h3
    have hres : generateGeneralResponse query r1 r2 r3 = generateDefaultResponse r1 r2 r3 := by
      simp [generateGeneralResponse, handleSpecialKeywords, h1, h2, h3]
    refine ⟨hres, ?_⟩
    rw [hres]
    simp only [allFallbackCombos]
    refine List.mem_flatMap.mpr
      ⟨friendlyPrefixes.get (Fin.cast (by decide) r1), List.get_mem _ _ _, ?_⟩
    refine List.mem_flatMap.mpr
      ⟨defaultResponses.get (Fin.cast (by decide) r2), List.get_mem _ _ _, ?_⟩
    exact List.mem_map.mpr
      ⟨encouragingSuffixes.get (Fin.cast (by decide) r3), List.get_mem _ _ _, rfl⟩

/-- Witness for C9 on a query hitting no special rule. -/
theorem claim_C9_witness :
    (jsIncludes "晚安" "你好" || jsIncludes "晚安" "哈囉" || jsIncludes "晚安" "嗨") = false ∧
    (jsIncludes "晚安" "謝謝" || jsIncludes "晚安" "感謝") = false ∧
    (jsIncludes "晚安" "幫助" || jsIncludes "晚安" "help" || jsIncludes "晚安" "使用說明") = false ∧
    generateGeneralResponse "晚安" 1 2 3 ∈ allFallbackCombos := by
  refine ⟨by decide, by decide, by decide, ?_⟩
  exact ((claim_C9 "晚安" 1 2 3).2.2.2.2.2.2 (by decide) (by decide) (by decide)).2

/-- C1: if the trimmed query equals some index key case-insensitively and
that key's value is a department marker, `findMatchingEntryId` returns a
department marker of such a key — regardless of any other non-department
keywords that are substrings of the query — and when all such keys carry
the marker `v`, it returns exactly `v`. -/
theorem claim_C1 (keywordIndex : List (String × String)) (query k v : String)
    (hmem : (k, v) ∈ keywordIndex)
    (hkey : jsToLower k = normQuery query)
    (hdept : jsStartsWith v "Department:" = true) :
    (∃ kv, kv ∈ keywordIndex ∧ jsToLower kv.1 = normQuery query ∧
      jsStartsWith kv.2 "Department:" = true ∧
      findMatchingEntryId query keywordIndex = some kv.2) ∧
    ((∀ kv ∈ keywordIndex, jsToLower kv.1 = normQuery query →
        jsStartsWith kv.2 "Department:" = true → kv.2 = v) →
      findMatchingEntryId query keywordIndex = some v) := by
  have hsome : (keywordIndex.find?
      (fun kv => jsToLower kv.1 == jsTrim (jsToLower query) && jsStartsWith kv.2 "Department:")).isSome := by
    refine List.find?_isSome.mpr ⟨(k, v), hmem, ?_⟩
    simp only [normQuery] at hkey
    simp [hkey, hdept]
  obtain ⟨kv, hfind⟩ := Option.isSome_iff_exists.mp hsome
  have hp := List.find?_some hfind
  have hm := List.mem_of_find?_eq_some hfind
  have hkv1 : jsToLower kv.1 = normQuery query := by
    simp only [Bool.and_eq_true, beq_iff_eq] at hp
    simpa [normQuery] using hp.1
  have hkv2 : jsStartsWith kv.2 "Department:" = true := by
    simp only [Bool.and_eq_true] at hp
    exact hp.2
  have hres : findMatchingEntryId query keywordIndex = some kv.2 := by
    simp [findMatchingEntryId, hfind]
  refine ⟨⟨kv, hm, hkv1, hkv2, hres⟩, ?_⟩
  intro huniq
  rw [hres, huniq kv hm hkv1 hkv2]

/-- Witness for C1: the department entry wins although the earlier keyword
`"i"` is a substring of the query `"icu"`. -/
theorem claim_C1_witness :
    (("ICU", "Department:icu") ∈ idxW ∧ jsToLower "ICU" = normQuery "icu" ∧
      jsStartsWith "Department:icu" "Department:" = true ∧
      (∀ kv ∈ idxW, jsToLower kv.1 = normQuery "icu" →
        jsStartsWith kv.2 "Department:" = true → kv.2 = "Department:icu")) ∧
    findMatchingEntryId "icu" idxW = some "Department:icu" := by
  refine ⟨⟨by decide, by decide, by decide, by decide⟩, ?_⟩
  exact (claim_C1 idxW "icu" "ICU" "Department:icu" (by decide) (by decide) (by decide)).2 (by decide)

theorem pureExcept_eq_ok {α : Type} (a : α) : (pure a : Except Unit α) = Except.ok a := rfl

theorem find?_filter_and {α : Type} (l : List α) (p q : α → Bool) :
    (l.filter p).find? q = l.find? (fun a => p a && q a) := by
  induction l with
  | nil => rfl
  | cons a l ih =>
    by_cases hp : p a = true
    · by_cases hq : q a = true <;> simp [List.filter_cons, List.find?_cons, hp, hq, ih]
    · simp [List.filter_cons, List.find?_cons, hp, ih]

/-- C3: with no exact department match, `findMatchingEntryId` returns the
target of the first non-department entry (in insertion order) whose
lowercased keyword is contained in the normalized query — `none` when no
entry qualifies — and whenever some non-department keyword is contained
in the query, the result is the target of such an entry. -/
theorem claim_C3 (keywordIndex : List (String × String)) (query : String)
    (hnodept : ∀ kv ∈ keywordIndex,
      ¬(jsToLower kv.1 = normQuery query ∧ jsStartsWith kv.2 "Department:" = true)) :
    findMatchingEntryId query keywordIndex =
      ((keywordIndex.filter (fun kv => !jsStartsWith kv.2 "Department:")).find?
        (fun kv => jsIncludes (normQuery query) (jsToLower kv.1))).map Prod.snd ∧
    (∀ kv ∈ keywordIndex, jsStartsWith kv.2 "Department:" = false →
      jsIncludes (normQuery query) (jsToLower kv.1) = true →
      ∃ kw, kw ∈ keywordIndex ∧ jsStartsWith kw.2 "Department:" = false ∧
        jsIncludes (normQuery query) (jsToLower kw.1) = true ∧
        findMatchingEntryId query keywordIndex = some kw.2) := by
  have hnone : keywordIndex.find?
      (fun kv => jsToLower kv.1 == jsTrim (jsToLower query) && jsStartsWith kv.2 "Department:") = none := by
    refine List.find?_eq_none.mpr (fun kv hm => ?_)
    have := hnodept kv hm
    simp only [normQuery] at this
    simp only [Bool.and_eq_true, beq_iff_eq, not_and]
    intro h1 h2
    exact this ⟨h1, h2⟩
  constructor
  · rw [find?_filter_and]
    simp only [findMatchingEntryId, hnone, normQuery]
    cases h2 : keywordIndex.find?
        (fun kv => !jsStartsWith kv.2 "Department:" && jsIncludes (jsTrim (jsToLower query)) (jsToLower kv.1)) <;>
      simp [h2]
  · intro kv hm hdept hincl
    have hsome : (keywordIndex.find?
        (fun kv => !jsStartsWith kv.2 "Department:" && jsIncludes (jsTrim (jsToLower query)) (jsToLower kv.1))).isSome := by
      refine List.find?_isSome.mpr ⟨kv, hm, ?_⟩
      simp only [normQuery] at hincl
      simp [hdept, hincl]
    obtain ⟨kw, hfind⟩ := Option.isSome_iff_exists.mp hsome
    have hp := List.find?_some hfind
    simp only [Bool.and_eq_true, Bool.not_eq_true'] at hp
    refine ⟨kw, List.mem_of_find?_eq_some hfind, hp.1, ?_, ?_⟩
    · simpa [normQuery] using hp.2
    · simp [findMatchingEntryId, hnone, hfind]

/-- Witness for C3 on the spec's scenario index. -/
theorem claim_C3_witness :
    (∀ kv ∈ idxW, ¬(jsToLower kv.1 = normQuery "how do I set up cvvh" ∧
      jsStartsWith kv.2 "Department:" = true)) ∧
    findMatchingEntryId "how do I set up cvvh" idxW =
      ((idxW.filter (fun kv => !jsStartsWith kv.2 "Department:")).find?
        (fun kv => jsIncludes (normQuery "how do I set up cvvh") (jsToLower kv.1))).map Prod.snd := by
  refine ⟨by decide, ?_⟩
  exact (claim_C3 idxW "how do I set up cvvh" (by decide)).1

/-- C2: when the resolved target is a department marker, `getResponse`
returns a listing result carrying the department code and the department
entries — the empty list for a department with zero entries — which is
tagged as a department listing and distinct from the `none` of an
unrecognized query. -/
theorem claim_C2 (s : KVStore) (query : String)
    (keywordIndex : List (String × String)) (v : String)
    (hidx : getKeywordIndex s = some keywordIndex)
    (hres : findMatchingEntryId query keywordIndex = some v)
    (hdept : jsStartsWith v "Department:" = true) :
    getResponse s query =
      some (.listing (jsReplaceOnce v "Department:" "")
        (getDepartmentEntries s (jsReplaceOnce v "Department:" ""))) ∧
    (getResponse s query).map RetrievalResult.isDepartmentListing = some true ∧
    (getDepartmentEntries s (jsReplaceOnce v "Department:" "") = [] →
      getResponse s query = some (.listing (jsReplaceOnce v "Department:" "") [])) ∧
    getResponse s query ≠ none := by
  have hvne : ¬(v = "") := by
    intro h
    subst h
    exact absurd hdept (by decide)
  have hE : getResponseE s query =
      Except.ok (some (.listing (jsReplaceOnce v "Department:" "")
        (getDepartmentEntries s (jsReplaceOnce v "Department:" "")))) := by
    simp only [getResponseE, hidx, hres, hvne, hdept, ite_true, ite_false, if_neg, not_false_eq_true]
    split
    · rfl
    · rename_i hlen
      have h0 : getDepartmentEntries s (jsReplaceOnce v "Department:" "") = [] := by
        simpa using hlen
      rw [h0]
      rfl
  have hmain : getResponse s query =
      some (.listing (jsReplaceOnce v "Department:" "")
        (getDepartmentEntries s (jsReplaceOnce v "Department:" ""))) := by
    simp [getResponse, hE]
  refine ⟨hmain, ?_, ?_, ?_⟩
  · simp [hmain, RetrievalResult.isDepartmentListing]
  · intro h0
    rw [hmain, h0]
  · simp [hmain]

/-- Witness for C2 on a department with zero stored documents. -/
theorem claim_C2_witness :
    getKeywordIndex storeEmptyW = some idxW ∧
    findMatchingEntryId "icu" idxW = some "Department:icu" ∧
    jsStartsWith "Department:icu" "Department:" = true ∧
    getDepartmentEntries storeEmptyW "icu" = [] ∧
    getResponse storeEmptyW "icu" = some (.listing "icu" []) := by
  refine ⟨by decide, by decide, by decide, by decide, ?_⟩
  exact ((claim_C2 storeEmptyW "icu" idxW "Department:icu"
    (by decide) (by decide) (by decide)).2.2.1 (by decide))

theorem getKeywordIndex_eq_none_unconfigured (s : KVStore) (h : s.configured = false) :
    getKeywordIndex s = none := by
  simp [getKeywordIndex, caught, h, pureExcept_eq_ok]

theorem getKeywordIndex_eq_none_of_err (s : KVStore) (h : s.rawIndex = Except.error ()) :
    getKeywordIndex s = none := by
  unfold getKeywordIndex
  cases hc : s.configured
  · simp [caught, hc, pureExcept_eq_ok]
  · simp [caught, hc, h, Bind.bind, Except.bind, pureExcept_eq_ok]

theorem getKeywordIndex_eq_none_of_missing (s : KVStore) (h : s.rawIndex = Except.ok none) :
    getKeywordIndex s = none := by
  unfold getKeywordIndex
  cases hc : s.configured
  · simp [caught, hc, pureExcept_eq_ok]
  · simp [caught, hc, h, Bind.bind, Except.bind, pureExcept_eq_ok]

theorem getKeywordIndex_eq_none_of_unparseable (s : KVStore) (e : Unit)
    (h : s.rawIndex = Except.ok (some (Except.error e))) :
    getKeywordIndex s = none := by
  unfold getKeywordIndex
  cases hc : s.configured
  · simp [caught, hc, pureExcept_eq_ok]
  · simp [caught, hc, h, Bind.bind, Except.bind, pureExcept_eq_ok]

theorem getResponse_none_of_no_index (s : KVStore) (query : String)
    (h : getKeywordIndex s = none) : getResponse s query = none := by
  simp [getResponse, getResponseE, h, pureExcept_eq_ok]

/-- C4: `getResponse` never raises to its caller: its body never leaves
the `ok` range of the exception monad, and each storage-layer failure —
unconfigured namespace, index fetch throwing, index key absent, index
unparseable, keyword unresolved, or the document fetch failing after the
id resolved — yields `none` instead of an error. -/
theorem claim_C4 (s : KVStore) (query : String) :
    (∃ r, getResponseE s query = Except.ok r) ∧
    (s.configured = false → getResponse s query = none) ∧
    (s.rawIndex = Except.error () → getResponse s query = none) ∧
    (s.rawIndex = Except.ok none → getResponse s query = none) ∧
    (∀ e, s.rawIndex = Except.ok (some (Except.error e)) → getResponse s query = none) ∧
    (∀ keywordIndex, getKeywordIndex s = some keywordIndex →
      findMatchingEntryId query keywordIndex = none → getResponse s query = none) ∧
    (∀ keywordIndex v, getKeywordIndex s = some keywordIndex →
      findMatchingEntryId query keywordIndex = some v → ¬(v = "") →
      jsStartsWith v "Department:" = false →
      getKnowledgeById s v = none → getResponse s query = none) := by
  refine ⟨?_, ?_, ?_, ?_, ?_, ?_, ?_⟩
  · unfold getResponseE
    cases hk : getKeywordIndex s with
    | none => exact ⟨none, rfl⟩
    | some keywordIndex =>
      dsimp only
      cases hf : findMatchingEntryId query keywordIndex with
      | none => exact ⟨none, rfl⟩
      | some knowledgeId =>
        dsimp only
        split
        · exact ⟨none, rfl⟩
        · split
          · split
            · exact ⟨_, rfl⟩
            · exact ⟨_, rfl⟩
          · cases hd : getKnowledgeById s knowledgeId with
            | some knowledgeEntry => exact ⟨_, rfl⟩
            | none => exact ⟨none, rfl⟩
  · intro h
    exact getResponse_none_of_no_index s query (getKeywordIndex_eq_none_unconfigured s h)
  · intro h
    exact getResponse_none_of_no_index s query (getKeywordIndex_eq_none_of_err s h)
  · intro h
    exact getResponse_none_of_no_index s query (getKeywordIndex_eq_none_of_missing s h)
  · intro e h
    exact getResponse_none_of_no_index s query (getKeywordIndex_eq_none_of_unparseable s e h)
  · intro keywordIndex hidx hf
    simp [getResponse, getResponseE, hidx, hf, pureExcept_eq_ok]
  · intro keywordIndex v hidx hf hne hdeptf hdoc
    simp [getResponse, getResponseE, hidx, hf, hne, hdeptf, hdoc, pureExcept_eq_ok]

/-- Witness for C4 on a store whose adapter throws on every call. -/
theorem claim_C4_witness :
    storeErrW.rawIndex = Except.error () ∧ getResponse storeErrW "icu" = none := by
  refine ⟨rfl, ?_⟩
  exact (claim_C4 storeErrW "icu").2.2.1 rfl

theorem applyAppend_at (sessions : SessionMap) (now userId : String) (op : AppendOp) :
    applyAppend sessions now userId op userId =
      some { history := capStep (histOf (sessions userId)) (op.entry now), lastInteraction := now } := by
  cases op <;> cases hs : sessions userId <;>
    simp [applyAppend, recordUserMessage, recordUserImage, recordUserVideo, recordBotMessage,
      getUserContext, hs, capStep, histOf, AppendOp.entry]

theorem applyAppend_other (sessions : SessionMap) (now userId : String) (op : AppendOp)
    (u : String) (hne : ¬(u = userId)) :
    applyAppend sessions now userId op u = sessions u := by
  cases op <;> cases hs : sessions userId <;>
    simp [applyAppend, recordUserMessage, recordUserImage, recordUserVideo, recordBotMessage,
      getUserContext, hs, hne]

theorem runAppends_bounded (events : List (String × String × AppendOp)) :
    ∀ sessions : SessionMap,
    (∀ u ctx, sessions u = some ctx → ctx.history.length ≤ MAX_DIALOG_HISTORY) →
    ∀ u ctx, runAppends sessions events u = some ctx → ctx.history.length ≤ MAX_DIALOG_HISTORY := by
  induction events with
  | nil => exact fun sessions hinv => hinv
  | cons ev rest ih =>
    intro sessions hinv
    obtain ⟨uid, now, op⟩ := ev
    refine ih _ (fun u ctx hu => ?_)
    by_cases hu2 : u = uid
    · subst hu2
      rw [applyAppend_at] at hu
      have hctx : ctx = { history := capStep (histOf (sessions u)) (op.entry now), lastInteraction := now } := by
        exact (Option.some_injective _ hu).symm
      rw [hctx]
      refine capStep_length_le _ _ ?_
      cases hs : sessions u with
      | none => simp [histOf]
      | some c => simpa [histOf] using hinv u c hs
    · rw [applyAppend_other _ _ _ _ _ hu2] at hu
      exact hinv u ctx hu

theorem capRun_eq_drop (es : List DialogEntry) :
    ∀ h : List DialogEntry, h.length ≤ MAX_DIALOG_HISTORY →
    capRun h es = (h ++ es).drop (h.length + es.length - MAX_DIALOG_HISTORY) := by
  induction es with
  | nil =>
    intro h hle
    simp only [capRun, List.append_nil, List.length_nil, Nat.add_zero]
    rw [Nat.sub_eq_zero_of_le hle, List.drop_zero]
  | cons e es ih =>
    intro h hle
    simp only [capRun]
    rw [ih (capStep h e) (capStep_length_le h e hle)]
    unfold capStep
    split
    · rename_i hgt
      have hlen : h.length = MAX_DIALOG_HISTORY := by
        simp only [List.length_append, List.length_singleton] at hgt
        omega
      have e1 : ((h ++ [e]).drop 1).length + es.length - MAX_DIALOG_HISTORY = es.length := by
        simp only [List.length_drop, List.length_append, List.length_singleton]
        omega
      have e2 : h.length + (e :: es).length - MAX_DIALOG_HISTORY = es.length + 1 := by
        simp only [List.length_cons]
        omega
      rw [e1, e2, ← List.drop_append_of_le_length (by simp), List.drop_drop,
        List.append_assoc, List.singleton_append, Nat.add_comm 1 es.length]
    · have e3 : (h ++ [e]).length + es.length - MAX_DIALOG_HISTORY =
          h.length + (e :: es).length - MAX_DIALOG_HISTORY := by
        simp only [List.length_append, List.length_singleton, List.length_cons, List.length_nil]
        omega
      rw [e3, List.append_assoc, List.singleton_append]

theorem runAppends_for_user (userId : String) (perUser : List (String × AppendOp)) :
    ∀ (sessions : SessionMap) (h0 : List DialogEntry) (li0 : String),
    sessions userId = some { history := h0, lastInteraction := li0 } →
    ∃ li, runAppends sessions (perUser.map (fun p => (userId, p.1, p.2))) userId =
      some { history := capRun h0 (perUser.map (fun p => AppendOp.entry p.1 p.2)), lastInteraction := li } := by
  induction perUser with
  | nil =>
    intro sessions h0 li0 hs
    exact ⟨li0, by simpa [runAppends, capRun] using hs⟩
  | cons p rest ih =>
    intro sessions h0 li0 hs
    obtain ⟨t, op⟩ := p
    have hstep : applyAppend sessions t userId op userId =
        some { history := capStep h0 (op.entry t), lastInteraction := t } := by
      simpa [hs, histOf] using applyAppend_at sessions t userId op
    obtain ⟨li, hrun⟩ := ih (applyAppend sessions t userId op) (capStep h0 (op.entry t)) t hstep
    refine ⟨li, ?_⟩
    simpa [runAppends, capRun] using hrun

/-- C5: for every sequence of append operations the dialog history length
never exceeds `MAX_DIALOG_HISTORY` (10) for any user, and after fifteen
appends for one (fresh) user the oldest five entries are gone while the
newest ten remain in their original relative order. -/
theorem claim_C5 (events : List (String × String × AppendOp)) (userId : String)
    (perUser : List (String × AppendOp)) :
    (∀ u ctx, runAppends emptySessions events u = some ctx →
      ctx.history.length ≤ MAX_DIALOG_HISTORY) ∧
    (perUser.length = 15 →
      ∃ ctx, runAppends emptySessions (perUser.map (fun p => (userId, p.1, p.2))) userId = some ctx ∧
        ctx.history = (perUser.map (fun p => AppendOp.entry p.1 p.2)).drop 5 ∧
        ctx.history.length = 10) := by
  constructor
  · refine runAppends_bounded events emptySessions (fun u ctx h => ?_)
    simp [emptySessions] at h
  · intro h15
    cases perUser with
    | nil => simp at h15
    | cons p rest =>
      obtain ⟨t, op⟩ := p
      have hstep : applyAppend emptySessions t userId op userId =
          some { history := capStep [] (op.entry t), lastInteraction := t } := by
        simpa [emptySessions, histOf] using applyAppend_at emptySessions t userId op
      obtain ⟨li, hrun⟩ :=
        runAppends_for_user userId rest (applyAppend emptySessions t userId op)
          (capStep [] (op.entry t)) t hstep
      have hmain : runAppends emptySessions
          (((t, op) :: rest).map (fun p => (userId, p.1, p.2))) userId =
          some { history := capRun [] (((t, op) :: rest).map (fun p => AppendOp.entry p.1 p.2)),
                 lastInteraction := li } := by
        simpa [runAppends, capRun] using hrun
      refine ⟨_, hmain, ?_, ?_⟩
      · rw [capRun_eq_drop _ [] (by simp [MAX_DIALOG_HISTORY])]
        simp only [List.nil_append, List.length_nil, Nat.zero_add]
        congr 1
        simp only [List.length_map] at h15 ⊢
        rw [h15]
        rfl
      · rw [capRun_eq_drop _ [] (by simp [MAX_DIALOG_HISTORY])]
        simp only [List.nil_append, List.length_nil, Nat.zero_add, List.length_drop, List.length_map]
        rw [h15]
        rfl

/-- Witness for C5: fifteen concrete appends for one user. -/
theorem claim_C5_witness :
    events15W.length = 15 ∧
    ∃ ctx, runAppends emptySessions (events15W.map (fun p => ("u", p.1, p.2))) "u" = some ctx ∧
      ctx.history = (events15W.map (fun p => AppendOp.entry p.1 p.2)).drop 5 ∧
      ctx.history.length = 10 := by
  refine ⟨by decide, ?_⟩
  exact (claim_C5 [] "u" events15W).2 (by decide)

theorem ws_of_term {c : Char} (h : isLineTerm c = true) : jsWhitespace c = true := by
  simp only [isLineTerm, Bool.or_eq_true, decide_eq_true_eq] at h
  rcases h with ((h | h) | h) | h <;> subst h <;> decide

theorem term_ne_hash {c : Char} (h : isLineTerm c = true) : (c == '#') = false := by
  simp only [isLineTerm, Bool.or_eq_true, decide_eq_true_eq] at h
  rcases h with ((h | h) | h) | h <;> subst h <;> decide

theorem term_false_of_ws_false {c : Char} (h : jsWhitespace c = false) : isLineTerm c = false := by
  cases ht : isLineTerm c
  · rfl
  · rw [ws_of_term ht] at h
    exact absurd h (by simp)

theorem dropWhile_head_false {α : Type} (p : α → Bool) (l : List α) :
    l.dropWhile p = [] ∨ ∃ a t, l.dropWhile p = a :: t ∧ p a = false := by
  induction l with
  | nil => exact Or.inl rfl
  | cons c cs ih =>
    cases hc : p c
    · exact Or.inr ⟨c, cs, by simp [List.dropWhile_cons, hc], hc⟩
    · simpa [List.dropWhile_cons, hc] using ih

theorem dropWhile_idem {α : Type} (p : α → Bool) (l : List α) :
    (l.dropWhile p).dropWhile p = l.dropWhile p := by
  rcases dropWhile_head_false p l with h | ⟨a, t, h, ha⟩
  · simp [h]
  · simp [h, List.dropWhile_cons, ha]

theorem takeWhile_all_append {α : Type} (p : α → Bool) (l₁ l₂ : List α)
    (h : ∀ c ∈ l₁, p c = true) :
    (l₁ ++ l₂).takeWhile p = l₁ ++ l₂.takeWhile p := by
  induction l₁ with
  | nil => simp
  | cons c cs ih =>
    have hc : p c = true := h c (List.mem_cons_self c cs)
    simp only [List.cons_append, List.takeWhile_cons, hc, if_true, ite_true]
    rw [ih (fun d hd => h d (List.mem_cons_of_mem c hd))]

theorem drop_length_takeWhile {α : Type} (p : α → Bool) (l : List α) :
    l.drop (l.takeWhile p).length = l.dropWhile p := by
  induction l with
  | nil => rfl
  | cons c cs ih =>
    cases hc : p c <;> simp [List.takeWhile_cons, List.dropWhile_cons, hc, ih]

theorem jsTrimChars_eq_nil_iff (l : List Char) :
    jsTrimChars l = [] ↔ l.dropWhile jsWhitespace = [] := by
  constructor
  · intro h
    rcases dropWhile_head_false jsWhitespace l with hd | ⟨a, t, hd, ha⟩
    · exact hd
    · exfalso
      unfold jsTrimChars at h
      rw [hd] at h
      have : ((a :: t).reverse.dropWhile jsWhitespace).reverse ≠ [] := by
        simp only [List.reverse_cons]
        rcases dropWhile_head_false jsWhitespace (t.reverse ++ [a]) with h2 | ⟨b, u, h2, hb⟩
        · exfalso
          have : a ∈ t.reverse ++ [a] := by simp
          have hmem := this
          rw [← List.takeWhile_append_dropWhile jsWhitespace (t.reverse ++ [a]), h2] at hmem
          simp only [List.append_nil] at hmem
          have := List.mem_takeWhile_imp hmem
          rw [this] at ha
          exact absurd ha (by simp)
        · simp [h2]
      exact this h
  · intro h
    unfold jsTrimChars
    rw [h]
    rfl

theorem jsTrimChars_dropWhile (l : List Char) :
    jsTrimChars (l.dropWhile jsWhitespace) = jsTrimChars l := by
  unfold jsTrimChars
  rw [dropWhile_idem]

theorem splitLinesJS_eq (cs : List Char) :
    splitLinesJS cs = (cs.takeWhile (fun c => !isLineTerm c)) ::
      (match cs.dropWhile (fun c => !isLineTerm c) with
       | [] => ([] : List (List Char))
       | _ :: tl => splitLinesJS tl) := by
  induction cs with
  | nil => rfl
  | cons c cs ih =>
    cases hc : isLineTerm c
    · simp only [splitLinesJS, hc, Bool.false_eq_true, if_false, List.takeWhile_cons,
        List.dropWhile_cons, Bool.not_false, if_true, ite_true, ite_false]
      rw [ih]
    · simp [splitLinesJS, hc, List.takeWhile_cons, List.dropWhile_cons]

theorem scanHeading_false_line (cs : List Char) :
    scanHeading cs false = (match cs.dropWhile (fun c => !isLineTerm c) with
      | [] => none
      | _ :: tl => scanHeading tl true) := by
  induction cs with
  | nil => rfl
  | cons c cs ih =>
    cases hc : isLineTerm c
    · simp only [scanHeading, Bool.false_and, Bool.false_eq_true, if_false, ite_false, hc,
        List.dropWhile_cons, Bool.not_false, if_true, ite_true]
      rw [ih]
    · simp [scanHeading, hc, List.dropWhile_cons]

theorem headingLineRaw_not_hash (c : Char) (l : List Char) (h : ¬(c = '#')) :
    headingLineRaw (c :: l) = none := by
  unfold headingLineRaw
  split
  · rename_i heq
    rw [List.cons.injEq] at heq
    exact absurd heq.1 h
  · rfl

theorem dropWhile_all {α : Type} (p : α → Bool) (l : List α) (h : ∀ x ∈ l, p x = true) :
    l.dropWhile p = [] := by
  induction l with
  | nil => rfl
  | cons c cs ih =>
    simp only [List.dropWhile_cons, h c (List.mem_cons_self c cs), if_true, ite_true]
    exact ih (fun x hx => h x (List.mem_cons_of_mem c hx))

theorem matchHeadingAt_none_of_no_ws (cs : List Char) (h : cs.takeWhile jsWhitespace = []) :
    matchHeadingAt cs = none := by
  unfold matchHeadingAt wsRunLen
  rw [h]
  rfl

theorem takeWhile_ws_eq_on_line (cs : List Char)
    (hni : (cs.takeWhile (fun c => !isLineTerm c)).dropWhile jsWhitespace ≠ []) :
    cs.takeWhile jsWhitespace = (cs.takeWhile (fun c => !isLineTerm c)).takeWhile jsWhitespace ∧
    cs.dropWhile jsWhitespace =
      (cs.takeWhile (fun c => !isLineTerm c)).dropWhile jsWhitespace ++
        cs.dropWhile (fun c => !isLineTerm c) := by
  have hsplit := List.takeWhile_append_dropWhile (fun c => !isLineTerm c) cs
  have hlen : ¬(((cs.takeWhile (fun c => !isLineTerm c)).takeWhile jsWhitespace).length =
      (cs.takeWhile (fun c => !isLineTerm c)).length) := by
    intro hl
    have heq : (cs.takeWhile (fun c => !isLineTerm c)).takeWhile jsWhitespace =
        cs.takeWhile (fun c => !isLineTerm c) :=
      List.Sublist.eq_of_length (List.takeWhile_sublist _) hl
    refine hni (dropWhile_all _ _ (fun x hx => ?_))
    rw [← heq] at hx
    exact List.mem_takeWhile_imp hx
  constructor
  · conv_lhs => rw [← hsplit]
    rw [List.takeWhile_append, if_neg hlen]
  · conv_lhs => rw [← hsplit]
    rw [List.dropWhile_append]
    have : ((cs.takeWhile (fun c => !isLineTerm c)).dropWhile jsWhitespace).isEmpty = false := by
      cases hh : (cs.takeWhile (fun c => !isLineTerm c)).dropWhile jsWhitespace
      · exact absurd hh hni
      · rfl
    rw [this]
    simp

theorem matchHeadingAt_success (cs : List Char)
    (hrun : cs.takeWhile jsWhitespace ≠ [])
    (hni : (cs.takeWhile (fun c => !isLineTerm c)).dropWhile jsWhitespace ≠ []) :
    matchHeadingAt cs = some ((cs.takeWhile (fun c => !isLineTerm c)).dropWhile jsWhitespace) := by
  obtain ⟨hF1, hF2⟩ := takeWhile_ws_eq_on_line cs hni
  have hdrop : cs.drop (wsRunLen cs) =
      (cs.takeWhile (fun c => !isLineTerm c)).dropWhile jsWhitespace ++
        cs.dropWhile (fun c => !isLineTerm c) := by
    rw [wsRunLen, drop_length_takeWhile, hF2]
  have hcand : (cs.drop (wsRunLen cs)).takeWhile (fun c => !isLineTerm c) =
      (cs.takeWhile (fun c => !isLineTerm c)).dropWhile jsWhitespace := by
    rw [hdrop]
    rw [takeWhile_all_append _ _ _ (fun c hc => ?_)]
    · have h2 : (cs.dropWhile (fun c => !isLineTerm c)).takeWhile (fun c => !isLineTerm c) = [] := by
        rcases dropWhile_head_false (fun c => !isLineTerm c) cs with hd | ⟨a, t, hd, ha⟩
        · rw [hd]
          rfl
        · rw [hd, List.takeWhile_cons, ha]
          simp
      rw [h2, List.append_nil]
    · have hmem : c ∈ cs.takeWhile (fun c => !isLineTerm c) :=
        (List.dropWhile_sublist _).subset hc
      exact @List.mem_takeWhile_imp Char (fun c => !isLineTerm c) cs c hmem
  have hpos : 1 ≤ wsRunLen cs := by
    rw [wsRunLen]
    cases hh : cs.takeWhile jsWhitespace
    · exact absurd hh hrun
    · simp
  obtain ⟨k, hk⟩ : ∃ k, wsRunLen cs = k + 1 := by
    cases hz : wsRunLen cs with
    | zero => rw [hz] at hpos; exact absurd hpos (by simp)
    | succ k => exact ⟨k, rfl⟩
  unfold matchHeadingAt
  rw [hk]
  unfold tryBack
  rw [← hk, hcand]
  have : ((cs.takeWhile (fun c => !isLineTerm c)).dropWhile jsWhitespace).isEmpty = false := by
    cases hh : (cs.takeWhile (fun c => !isLineTerm c)).dropWhile jsWhitespace
    · exact absurd hh hni
    · rfl
  rw [this]
  simp

theorem takeWhile_ws_nil_of_run_nil (cs' : List Char)
    (hr : cs'.takeWhile jsWhitespace = []) :
    (cs'.takeWhile (fun c => !isLineTerm c)).takeWhile jsWhitespace = [] := by
  cases cs' with
  | nil => rfl
  | cons d t =>
    have hwd : jsWhitespace d = false := by
      cases hwd : jsWhitespace d
      · rfl
      · rw [List.takeWhile_cons, hwd] at hr
        simp at hr
    have htd : isLineTerm d = false := term_false_of_ws_false hwd
    rw [List.takeWhile_cons, htd]
    simp only [Bool.not_false, if_true, ite_true]
    rw [List.takeWhile_cons, hwd]
    simp

theorem headingLineRaw_hash (rest : List Char) :
    headingLineRaw ('#' :: rest) =
      if (rest.takeWhile jsWhitespace).isEmpty then none
      else if (rest.dropWhile jsWhitespace).isEmpty then none
      else some (rest.dropWhile jsWhitespace) := rfl

theorem scanHeading_eq_findSome (n : Nat) :
    ∀ cs : List Char, cs.length ≤ n →
    (∀ l ∈ splitLinesJS cs, l.head? = some '#' → (l.drop 1).dropWhile jsWhitespace ≠ []) →
    scanHeading cs true = (splitLinesJS cs).findSome? headingLineRaw := by
  induction n with
  | zero =>
    intro cs hlen _
    have hnil : cs = [] := List.length_eq_zero.mp (Nat.le_zero.mp hlen)
    subst hnil
    rfl
  | succ n ih =>
    intro cs hlen hH
    cases cs with
    | nil => rfl
    | cons c cs' =>
      have hlen' : cs'.length ≤ n := by
        simp only [List.length_cons] at hlen
        omega
      cases hc : isLineTerm c with
      | true =>
        have hh : (c == '#') = false := term_ne_hash hc
        have hL : scanHeading (c :: cs') true = scanHeading cs' true := by
          simp [scanHeading, hh, hc]
        have hR : splitLinesJS (c :: cs') = [] :: splitLinesJS cs' := by
          simp [splitLinesJS, hc]
        rw [hL, hR, List.findSome?_cons]
        have hraw : headingLineRaw [] = none := rfl
        rw [hraw]
        refine ih cs' hlen' (fun l hl hhead => ?_)
        exact hH l (by rw [hR]; exact List.mem_cons_of_mem _ hl) hhead
      | false =>
        have hlines : splitLinesJS (c :: cs') =
            (c :: cs'.takeWhile (fun c => !isLineTerm c)) ::
              (match cs'.dropWhile (fun c => !isLineTerm c) with
               | [] => ([] : List (List Char))
               | _ :: tl => splitLinesJS tl) := by
          rw [splitLinesJS_eq]
          simp [List.takeWhile_cons, List.dropWhile_cons, hc]
        have hHtail : ∀ t tl, cs'.dropWhile (fun c => !isLineTerm c) = t :: tl →
            ∀ l ∈ splitLinesJS tl, l.head? = some '#' → (l.drop 1).dropWhile jsWhitespace ≠ [] := by
          intro t tl hd l hl hhead
          refine hH l ?_ hhead
          rw [hlines, hd]
          exact List.mem_cons_of_mem _ hl
        have hlentl : ∀ t tl, cs'.dropWhile (fun c => !isLineTerm c) = t :: tl →
            tl.length ≤ n := by
          intro t tl hd
          have h1 : (cs'.dropWhile (fun c => !isLineTerm c)).length ≤ cs'.length :=
            (List.dropWhile_sublist _).length_le
          rw [hd] at h1
          simp only [List.length_cons] at h1
          omega
        cases hh : c == '#' with
        | false =>
          have hcne : ¬(c = '#') := by simpa using hh
          have hL : scanHeading (c :: cs') true = scanHeading cs' false := by
            simp [scanHeading, hh, hc]
          rw [hL, scanHeading_false_line, hlines, List.findSome?_cons,
            headingLineRaw_not_hash c _ hcne]
          cases hd : cs'.dropWhile (fun c => !isLineTerm c) with
          | nil => rfl
          | cons t tl =>
            exact ih tl (hlentl t tl hd) (hHtail t tl hd)
        | true =>
          have hceq : c = '#' := by simpa using hh
          subst hceq
          have hmemline : ('#' :: cs'.takeWhile (fun c => !isLineTerm c)) ∈ splitLinesJS ('#' :: cs') := by
            rw [hlines]
            exact List.mem_cons_self _ _
          have hni : (cs'.takeWhile (fun c => !isLineTerm c)).dropWhile jsWhitespace ≠ [] := by
            have := hH _ hmemline (by rfl)
            simpa using this
          cases hr : cs'.takeWhile jsWhitespace with
          | nil =>
            have hL : scanHeading ('#' :: cs') true = scanHeading cs' false := by
              simp [scanHeading, matchHeadingAt_none_of_no_ws cs' hr, hc]
            have hraw : headingLineRaw ('#' :: cs'.takeWhile (fun c => !isLineTerm c)) = none := by
              rw [headingLineRaw_hash, takeWhile_ws_nil_of_run_nil cs' hr]
              rfl
            rw [hL, scanHeading_false_line, hlines, List.findSome?_cons, hraw]
            cases hd : cs'.dropWhile (fun c => !isLineTerm c) with
            | nil => rfl
            | cons t tl =>
              exact ih tl (hlentl t tl hd) (hHtail t tl hd)
          | cons w ws' =>
            have hrne : cs'.takeWhile jsWhitespace ≠ [] := by
              rw [hr]
              simp
            have hmatch := matchHeadingAt_success cs' hrne hni
            have hL : scanHeading ('#' :: cs') true =
                some ((cs'.takeWhile (fun c => !isLineTerm c)).dropWhile jsWhitespace) := by
              simp [scanHeading, hmatch]
            have hrunline : (cs'.takeWhile (fun c => !isLineTerm c)).takeWhile jsWhitespace ≠ [] := by
              have hF1 := (takeWhile_ws_eq_on_line cs' hni).1
              rw [← hF1, hr]
              simp
            have hraw : headingLineRaw ('#' :: cs'.takeWhile (fun c => !isLineTerm c)) =
                some ((cs'.takeWhile (fun c => !isLineTerm c)).dropWhile jsWhitespace) := by
              have h1 : ((cs'.takeWhile (fun c => !isLineTerm c)).takeWhile jsWhitespace).isEmpty = false := by
                cases hx : (cs'.takeWhile (fun c => !isLineTerm c)).takeWhile jsWhitespace
                · exact absurd hx hrunline
                · rfl
              have h2 : ((cs'.takeWhile (fun c => !isLineTerm c)).dropWhile jsWhitespace).isEmpty = false := by
                cases hx : (cs'.takeWhile (fun c => !isLineTerm c)).dropWhile jsWhitespace
                · exact absurd hx hni
                · rfl
              rw [headingLineRaw_hash]
              simp [h1, h2]
            rw [hL, hlines, List.findSome?_cons, hraw]

theorem headingLineTitle_hash (rest : List Char) :
    headingLineTitle ('#' :: rest) =
      if (rest.takeWhile jsWhitespace).isEmpty then none
      else if (jsTrimChars rest).isEmpty then none
      else some (jsTrimChars rest) := rfl

theorem headingLineTitle_not_hash (c : Char) (l : List Char) (h : ¬(c = '#')) :
    headingLineTitle (c :: l) = none := by
  unfold headingLineTitle
  split
  · rename_i heq
    rw [List.cons.injEq] at heq
    exact absurd heq.1 h
  · rfl

theorem headingLineTitle_eq_map (l : List Char) :
    headingLineTitle l = (headingLineRaw l).map jsTrimChars := by
  cases l with
  | nil => rfl
  | cons c t =>
    by_cases hc : c = '#'
    · subst hc
      rw [headingLineTitle_hash, headingLineRaw_hash]
      cases h1 : (t.takeWhile jsWhitespace).isEmpty
      · simp only [Bool.false_eq_true, if_false, ite_false]
        have hiff : (jsTrimChars t).isEmpty = (t.dropWhile jsWhitespace).isEmpty := by
          cases h2 : (t.dropWhile jsWhitespace).isEmpty
          · cases h3 : (jsTrimChars t).isEmpty
            · rfl
            · exfalso
              have := (jsTrimChars_eq_nil_iff t).mp (List.isEmpty_iff.mp h3)
              rw [this] at h2
              simp at h2
          · have := (jsTrimChars_eq_nil_iff t).mpr (List.isEmpty_iff.mp h2)
            rw [this]
            rfl
        rw [hiff]
        cases h2 : (t.dropWhile jsWhitespace).isEmpty
        · simp [jsTrimChars_dropWhile]
        · simp
      · simp
    · rw [headingLineTitle_not_hash c t hc, headingLineRaw_not_hash c t hc]
      rfl

theorem findSome?_map_comp {α β γ : Type} (l : List α) (f : α → Option β) (g : β → γ) :
    l.findSome? (fun a => (f a).map g) = (l.findSome? f).map g := by
  induction l with
  | nil => rfl
  | cons a t ih =>
    rw [List.findSome?_cons, List.findSome?_cons]
    cases hf : f a <;> simp [hf, ih]

theorem extractTitle_eq_titleSpec (text : String) (hnb : NoBlankHeading text) :
    extractTitle text = titleSpecOfLines text := by
  unfold extractTitle titleSpecOfLines
  rw [scanHeading_eq_findSome (text.toList.length) text.toList le_rfl hnb]
  have hmap : (splitLinesJS text.toList).findSome? headingLineTitle =
      ((splitLinesJS text.toList).findSome? headingLineRaw).map jsTrimChars := by
    rw [← findSome?_map_comp]
    congr 1
    funext l
    exact headingLineTitle_eq_map l
  rw [hmap]
  cases h : (splitLinesJS text.toList).findSome? headingLineRaw <;> simp

theorem findDescLoop_eq_find (ps : List (List Char)) :
    findDescLoop ps =
      ((ps.find? (fun p => !(['#'].isPrefixOf p) && !(jsTrimChars p).isEmpty)).map jsTrimChars).getD [] := by
  induction ps with
  | nil => rfl
  | cons p t ih =>
    rw [List.find?_cons]
    cases hcond : (!(['#'].isPrefixOf p) && !(jsTrimChars p).isEmpty) <;>
      simp [findDescLoop, hcond, ih]

theorem extractDescription_eq_spec (text : String) :
    extractDescription text = descriptionSpec text := by
  unfold extractDescription descriptionSpec
  dsimp only
  rw [findDescLoop_eq_find]
  cases hf : (splitPara text.toList).find? (fun p => !(['#'].isPrefixOf p) && !(jsTrimChars p).isEmpty) with
  | none => simp
  | some p =>
    have hcond := List.find?_some hf
    simp only [Bool.and_eq_true, Bool.not_eq_true'] at hcond
    by_cases hlen : (jsTrimChars p).length > 50
    · have hne : (jsTrimChars p).take 50 ++ "...".toList ≠ [] := by
        intro h
        have := congrArg List.length h
        simp at this
      simp [hlen, List.isEmpty_iff, hne]
    · have hne : jsTrimChars p ≠ [] := by
        intro h
        rw [h] at hcond
        simp at hcond
      simp [hlen, List.isEmpty_iff, hne]

/-- C7 as stated is false on the code: in the text consisting of a `#`
line followed by the line `Abc`, no single line matches the heading
pattern (spec-side title falls back to the untitled-entry literal), yet
the source regex `/^#\s+(.+)$/m` lets its `\s+` cross the line break and
extracts the title `Abc`. -/
theorem claim_C7_counterexample :
    extractTitle "#\nAbc" = "Abc" ∧
    titleSpecOfLines "#\nAbc" = "未命名知識條目" ∧
    extractTitle "#\nAbc" ≠ titleSpecOfLines "#\nAbc" := by
  refine ⟨by decide, by decide, by decide⟩

/-- C7 (amended): for every document text in which every line that begins
with the `#` marker has some non-whitespace content after it — so the
heading regex cannot cross a line break — the title is the trimmed
content of the first line matching a leading `#` heading marker with the
untitled-entry fallback, and (for every text) the description is the
first blank-line-separated non-heading, non-blank paragraph, trimmed,
truncated to 50 characters plus an ellipsis when longer, with the
no-description fallback. -/
theorem claim_C7 (text : String) (hnb : NoBlankHeading text) :
    extractTitle text = titleSpecOfLines text ∧
    extractDescription text = descriptionSpec text :=
  ⟨extractTitle_eq_titleSpec text hnb, extractDescription_eq_spec text⟩

/-- Witness for C7 on a concrete well-formed document text. -/
theorem claim_C7_witness :
    NoBlankHeading "# CVVH 設定\n\n這是說明。\n# 附錄" ∧
    extractTitle "# CVVH 設定\n\n這是說明。\n# 附錄" =
      titleSpecOfLines "# CVVH 設定\n\n這是說明。\n# 附錄" ∧
    extractDescription "# CVVH 設定\n\n這是說明。\n# 附錄" =
      descriptionSpec "# CVVH 設定\n\n這是說明。\n# 附錄" := by
  refine ⟨by decide, ?_, ?_⟩
  · exact (claim_C7 _ (by decide)).1
  · exact (claim_C7 _ (by decide)).2
